import Mathlib

/-!
Shallow embedding of the AUSoundTouch streaming adapter
(`Source/SoundTouchWrapper.cpp` / `.h`, plus the buffering-mode entry of
`Source/PluginProcessor.cpp`).

Sample values are modelled by an abstract type `α` (with an `Inhabited`
default standing for the `0.0f` a `buffer.clear()` writes): every operation
the claims are about only moves samples around, so an abstract carrier
captures the "bit-for-bit, no clamping" behaviour of `float` exactly.

The external SoundTouch engine is a black box: `processBlock` takes the
engine's queued-output frames (the state after `putSamples`) as an explicit
parameter, and `receiveSamples` on that queue is modelled by its documented
behaviour (remove and return up to `maxSamples` whole frames from the
front).  The `juce::AbstractFifo` counters are modelled from that class's
semantics (`getNumReady`, `getFreeSpace = size - ready - 1`,
`prepareToWrite`/`finishedWrite`, `prepareToRead`/`finishedRead` with their
dual-span wrap-around layout); the backing `fifoBuffer` vector is a total
function `Nat → α` (only indices below the fifo size are ever read under
the preconditions proved here).
-/

namespace AUSoundTouch

variable {α : Type} [Inhabited α]

/-- Counters of a `juce::AbstractFifo` of size `bufferSize`:
`validStart`/`validEnd` are the read and write positions. -/
structure AbstractFifo where
  bufferSize : Nat
  validStart : Nat
  validEnd : Nat
  deriving Repr, DecidableEq

namespace AbstractFifo

/-- `juce::AbstractFifo::getNumReady`: number of samples ready to read. -/
def getNumReady (f : AbstractFifo) : Nat :=
  if f.validStart ≤ f.validEnd then f.validEnd - f.validStart
  else f.bufferSize - (f.validStart - f.validEnd)

/-- `juce::AbstractFifo::getFreeSpace = bufferSize - getNumReady() - 1`. -/
def getFreeSpace (f : AbstractFifo) : Nat :=
  f.bufferSize - f.getNumReady - 1

/-- `juce::AbstractFifo::prepareToWrite`: returns
`(startIndex1, blockSize1, startIndex2, blockSize2)`.  The requested count
is clamped to the free space; the second span starts at index 0. -/
def prepareToWrite (f : AbstractFifo) (numToWrite : Nat) : Nat × Nat × Nat × Nat :=
  let freeSpace :=
    if f.validStart ≤ f.validEnd then f.bufferSize - (f.validEnd - f.validStart)
    else f.validStart - f.validEnd
  let n := min numToWrite (freeSpace - 1)
  if n = 0 then (0, 0, 0, 0)
  else
    let blockSize1 := min (f.bufferSize - f.validEnd) n
    let rem := n - blockSize1
    (f.validEnd, blockSize1, 0, if rem = 0 then 0 else min rem f.validStart)

/-- `juce::AbstractFifo::finishedWrite`: advance the write position,
wrapping once past the end. -/
def finishedWrite (f : AbstractFifo) (numWritten : Nat) : AbstractFifo :=
  let e := f.validEnd + numWritten
  { f with validEnd := if f.bufferSize ≤ e then e - f.bufferSize else e }

/-- `juce::AbstractFifo::prepareToRead`: dual-span layout of the first
`numWanted` ready samples (clamped to `getNumReady`). -/
def prepareToRead (f : AbstractFifo) (numWanted : Nat) : Nat × Nat × Nat × Nat :=
  let numReady :=
    if f.validStart ≤ f.validEnd then f.validEnd - f.validStart
    else f.bufferSize - (f.validStart - f.validEnd)
  let n := min numWanted numReady
  if n = 0 then (0, 0, 0, 0)
  else
    let blockSize1 := min (f.bufferSize - f.validStart) n
    let rem := n - blockSize1
    (f.validStart, blockSize1, 0, if rem = 0 then 0 else min rem f.validEnd)

/-- `juce::AbstractFifo::finishedRead`: advance the read position,
wrapping once past the end. -/
def finishedRead (f : AbstractFifo) (numRead : Nat) : AbstractFifo :=
  let s := f.validStart + numRead
  { f with validStart := if f.bufferSize ≤ s then s - f.bufferSize else s }

/-- Structural well-formedness maintained by every `AbstractFifo`:
positions lie inside the buffer. -/
def WF (f : AbstractFifo) : Prop :=
  0 < f.bufferSize ∧ f.validStart < f.bufferSize ∧ f.validEnd < f.bufferSize

instance (f : AbstractFifo) : Decidable f.WF := by
  unfold WF; infer_instance

end AbstractFifo

/-- The `i`-th oldest sample held by the fifo lives at physical index
`(validStart + i) % bufferSize` of the backing store `d`. -/
def contentList (f : AbstractFifo) (d : Nat → α) (m : Nat) : List α :=
  (List.range m).map fun i => d ((f.validStart + i) % f.bufferSize)

theorem getNumReady_lt_bufferSize (f : AbstractFifo) (hwf : f.WF) :
    f.getNumReady < f.bufferSize := by
  obtain ⟨h0, hs, he⟩ := hwf
  unfold AbstractFifo.getNumReady
  split <;> omega

theorem getNumReady_finishedWrite (f : AbstractFifo) (hwf : f.WF) (n : Nat)
    (h : n ≤ f.getFreeSpace) :
    (f.finishedWrite n).getNumReady = f.getNumReady + n := by
  obtain ⟨h0, hs, he⟩ := hwf
  unfold AbstractFifo.getFreeSpace AbstractFifo.getNumReady at h
  simp only [AbstractFifo.finishedWrite, AbstractFifo.getNumReady]
  split at h <;> split <;> split <;> omega

theorem finishedWrite_WF (f : AbstractFifo) (hwf : f.WF) (n : Nat)
    (h : n ≤ f.getFreeSpace) : (f.finishedWrite n).WF := by
  obtain ⟨h0, hs, he⟩ := hwf
  unfold AbstractFifo.getFreeSpace AbstractFifo.getNumReady at h
  simp only [AbstractFifo.finishedWrite, AbstractFifo.WF]
  split at h <;> split <;> omega

theorem getNumReady_finishedRead (f : AbstractFifo) (hwf : f.WF) (n : Nat)
    (h : n ≤ f.getNumReady) :
    (f.finishedRead n).getNumReady = f.getNumReady - n := by
  obtain ⟨h0, hs, he⟩ := hwf
  unfold AbstractFifo.getNumReady at h
  simp only [AbstractFifo.finishedRead, AbstractFifo.getNumReady]
  split at h <;> split <;> split <;> omega

theorem finishedRead_WF (f : AbstractFifo) (hwf : f.WF) (n : Nat)
    (h : n ≤ f.getNumReady) : (f.finishedRead n).WF := by
  obtain ⟨h0, hs, he⟩ := hwf
  unfold AbstractFifo.getNumReady at h
  simp only [AbstractFifo.finishedRead, AbstractFifo.WF]
  split at h <;> split <;> omega

/-- `std::copy(src.begin()+srcPos, src.begin()+srcPos+len, dst.begin()+dstPos)`
on the backing store: index `k` in `[dstPos, dstPos+len)` now holds
`src[srcPos + (k - dstPos)]`. -/
def copyInto (d : Nat → α) (src : List α) (srcPos dstPos len : Nat) : Nat → α :=
  fun k => if dstPos ≤ k ∧ k < dstPos + len then src.getD (srcPos + (k - dstPos)) (d k) else d k

/-- One iteration of the drain loop's write phase
(`SoundTouchWrapper.cpp` lines 144–167): `received` frames were just taken
from the engine into `batch` (interleaved, `received * numChannels`
samples); write `min(received, getFreeSpace/numChannels)` whole frames into
the fifo through `prepareToWrite`/`finishedWrite`, discarding the rest of
the batch. -/
def pushToFifo (numChannels : Nat) (f : AbstractFifo) (d : Nat → α)
    (batch : List α) (received : Nat) : AbstractFifo × (Nat → α) :=
  let samplesInFifo := f.getFreeSpace / numChannels
  let samplesToWrite := min received samplesInFifo
  if 0 < samplesToWrite then
    let (start1, size1, start2, size2) := f.prepareToWrite (samplesToWrite * numChannels)
    let d1 := if 0 < size1 then copyInto d batch 0 start1 size1 else d
    let d2 := if 0 < size2 then copyInto d1 batch size1 start2 size2 else d1
    (f.finishedWrite (samplesToWrite * numChannels), d2)
  else (f, d)

/-- The drain loop of `processBlock` (lines 134–168), with explicit fuel.
`q` is the engine's queued-output frame list; `receiveSamples` removes and
returns up to `maxFrames = numSamples * 2` whole frames from its front.
Returns the fifo state, backing store, and the engine's leftover queue. -/
def drainLoopFuel (numChannels maxFrames : Nat) :
    Nat → List (List α) → AbstractFifo → (Nat → α) →
    AbstractFifo × (Nat → α) × List (List α)
  | 0, q, f, d => (f, d, q)
  | fuel + 1, q, f, d =>
    if 0 < q.length then
      let received := min maxFrames q.length
      if received = 0 then (f, d, q)
      else
        let batch := (q.take received).flatten
        let q' := q.drop received
        let p := pushToFifo numChannels f d batch received
        drainLoopFuel numChannels maxFrames fuel q' p.1 p.2
    else (f, d, q)

/-- The drain loop as executed: the queue length is always enough fuel
(each iteration removes at least one frame or exits). -/
def drainLoop (numChannels maxFrames : Nat) (q : List (List α))
    (f : AbstractFifo) (d : Nat → α) : AbstractFifo × (Nat → α) × List (List α) :=
  drainLoopFuel numChannels maxFrames q.length q f d

/-- A JUCE `AudioBuffer<float>`: list of channels, each a list of samples. -/
def getSample (buf : List (List α)) (channel sample : Nat) : α :=
  (buf.getD channel []).getD sample default

/-- `AudioBuffer::getNumSamples` (same for every channel of a well-formed
buffer). -/
def getNumSamples (buf : List (List α)) : Nat :=
  (buf.getD 0 []).length

/-- A planar buffer with `numChannels` channels of `numSamples` samples. -/
def BufferWF (buf : List (List α)) (numChannels numSamples : Nat) : Prop :=
  buf.length = numChannels ∧ ∀ ch ∈ buf, ch.length = numSamples

instance (buf : List (List α)) (numChannels numSamples : Nat) :
    Decidable (BufferWF buf numChannels numSamples) := by
  unfold BufferWF; infer_instance

/-- Step 1 of `processBlock` (lines 120–127): interleave the planar input,
sample-major (`interleavedBuffer[sample * numChannels + channel] =
buffer.getSample(channel, sample)`). -/
def interleave (buf : List (List α)) (numSamples numChannels : Nat) : List α :=
  (List.range numSamples).flatMap fun sample =>
    (List.range numChannels).map fun channel => getSample buf channel sample

/-- The de-interleave direction of the format bridge, as performed on
drained output (lines 180–206): planar channel `ch`, sample `s` comes from
interleaved index `s * numChannels + ch`. -/
def deinterleave (l : List α) (numSamples numChannels : Nat) : List (List α) :=
  (List.range numChannels).map fun channel =>
    (List.range numSamples).map fun sample => l.getD (sample * numChannels + channel) default

/-- Buffering-mode capacity policy (the `switch` of `prepare` lines 59–74
and `setBufferingMode` lines 252–271): fifo size in interleaved samples. -/
def fifoSizeFor (mode : Int) (blockSize : Nat) : Nat :=
  if mode = 1 then max 4096 (blockSize * 8)
  else if mode = 2 then max 16384 (blockSize * 32)
  else if mode = 3 then max 32768 (blockSize * 64)
  else max 16384 (blockSize * 32)

/-- State of a `SoundTouchWrapper` (the `outputFifo` and `fifoBuffer`
fields; `interleavedBuffer` is scratch fully rewritten before each use and
is not part of the observable state). -/
structure WrapperState (α : Type) where
  currentSampleRate : Float
  currentBlockSize : Nat
  currentNumChannels : Nat
  bufferingMode : Int
  outputFifo : AbstractFifo
  fifoBuffer : Nat → α

/-- Observable state of the external engine: queued output frames
(`numSamples`/`receiveSamples`) and unconsumed input samples
(`numUnprocessedSamples`). -/
structure EngineState (α : Type) where
  queued : List (List α)
  unprocessed : Nat

/-- `soundtouch::SoundTouch::clear()`. -/
def EngineState.clear (_ : EngineState α) : EngineState α := ⟨[], 0⟩

/-- `SoundTouchWrapper::prepare`: stores the stream configuration,
allocates a fresh fifo at the policy size for the current buffering mode
(positions reset to 0), resizes the backing store (old samples retained by
`std::vector::resize`, unobservable at occupancy 0), and clears the
engine. -/
def prepare (st : WrapperState α) (e : EngineState α)
    (sampleRate : Float) (blockSize numChannels : Nat) :
    WrapperState α × EngineState α :=
  let fifoSize := fifoSizeFor st.bufferingMode blockSize
  ({ st with
      currentSampleRate := sampleRate
      currentBlockSize := blockSize
      currentNumChannels := numChannels
      outputFifo := ⟨fifoSize, 0, 0⟩ }, e.clear)

/-- `SoundTouchWrapper::setBufferingMode` (lines 242–281): rejects
out-of-range or unchanged modes; otherwise reallocates the fifo at the new
policy size and clears the engine (when a `prepare` has set positive
dimensions). -/
def setBufferingMode (st : WrapperState α) (e : EngineState α) (mode : Int) :
    WrapperState α × EngineState α :=
  if mode < 1 ∨ 3 < mode ∨ mode = st.bufferingMode then (st, e)
  else
    let st1 := { st with bufferingMode := mode }
    if 0 < st1.currentBlockSize ∧ 0 < st1.currentNumChannels then
      let fifoSize := fifoSizeFor st1.bufferingMode st1.currentBlockSize
      ({ st1 with outputFifo := ⟨fifoSize, 0, 0⟩ }, e.clear)
    else (st1, e)

/-- `AUSoundTouchProcessor::setBufferingMode`: accepts only
`Minimal = 1 ≤ mode ≤ Extra = 3`, stores it in the processor's atomic and
forwards to the wrapper. Returns the processor's stored mode with the
wrapper and engine states. -/
def processorSetBufferingMode (procMode : Int) (st : WrapperState α)
    (e : EngineState α) (mode : Int) : Int × WrapperState α × EngineState α :=
  if 1 ≤ mode ∧ mode ≤ 3 then (mode, setBufferingMode st e mode)
  else (procMode, st, e)

/-- `SoundTouchWrapper::getLatencyInSamples`: engine unconsumed input
samples plus fifo occupancy converted to frames (the wrapper is prepared,
so `outputFifo` is non-null). -/
def getLatencyInSamples (st : WrapperState α) (numUnprocessedSamples : Nat) : Nat :=
  let unprocessedSamples := numUnprocessedSamples
  let fifoSamples := st.outputFifo.getNumReady / st.currentNumChannels
  unprocessedSamples + fifoSamples

/-- Ring-buffer occupancy in frames, as the wrapper computes it everywhere
(sample count divided by channel count). -/
def occupancyFrames (st : WrapperState α) : Nat :=
  st.outputFifo.getNumReady / st.currentNumChannels

/-- Ring-buffer capacity in frames: the fifo holds interleaved samples,
`numChannels` per frame, so its total size in samples divided by the
channel count. -/
def capacityFrames (st : WrapperState α) : Nat :=
  st.outputFifo.bufferSize / st.currentNumChannels

/-- Step 3 of `processBlock` when enough samples are ready
(lines 177–206): `buffer.clear()` (cleared samples are `default`, the model
of `0.0f`), `prepareToRead(numSamples * numChannels)`, the two
de-interleaving span loops (`for (i = 0; i < size; i += numChannels)`,
reading `fifoBuffer[start + i + ch]` into sample index counted across both
spans), then `finishedRead`.  Returns the advanced fifo and the rewritten
planar buffer. -/
def readPhase (numChannels numSamples : Nat) (f : AbstractFifo) (d : Nat → α) :
    AbstractFifo × List (List α) :=
  let (start1, size1, start2, size2) := f.prepareToRead (numSamples * numChannels)
  let frames1 := (size1 + numChannels - 1) / numChannels
  let frames2 := (size2 + numChannels - 1) / numChannels
  let out := (List.range numChannels).map fun ch =>
    (List.range numSamples).map fun s =>
      if s < frames1 then d (start1 + s * numChannels + ch)
      else if s < frames1 + frames2 then d (start2 + (s - frames1) * numChannels + ch)
      else default
  (f.finishedRead (numSamples * numChannels), out)

/-- Result of a `processBlock` call: wrapper state, engine's leftover
output queue, the (possibly rewritten) host buffer, and whether the
channel-mismatch diagnostic (`jassertfalse`) fired. -/
structure ProcessResult (α : Type) where
  state : WrapperState α
  engineQueued : List (List α)
  buffer : List (List α)
  configError : Bool

/-- `SoundTouchWrapper::processBlock`.  `engineQueued` is the engine's
queued-output frame list as the drain loop observes it, i.e. after
`putSamples(interleave buffer, numSamples)` has run — what `putSamples`
adds to the queue is the engine's black-box transform, so the post-put
queue is a parameter.  On channel mismatch the call returns before
touching anything (`jassertfalse; return`).  Otherwise it drains the
engine into the fifo and either rewrites the buffer from the fifo
(occupancy in frames ≥ `numSamples`) or leaves it untouched
(PASSTHROUGH). -/
def processBlock (st : WrapperState α) (buffer : List (List α))
    (engineQueued : List (List α)) : ProcessResult α :=
  let numSamples := getNumSamples buffer
  let numChannels := buffer.length
  if numChannels ≠ st.currentNumChannels then
    ⟨st, engineQueued, buffer, true⟩
  else
    let p :=
      drainLoop numChannels (numSamples * 2) engineQueued st.outputFifo st.fifoBuffer
    let availableInFifo := p.1.getNumReady / numChannels
    if numSamples ≤ availableInFifo then
      let r := readPhase numChannels numSamples p.1 p.2.1
      ⟨{ st with outputFifo := r.1, fifoBuffer := p.2.1 }, p.2.2, r.2, false⟩
    else
      ⟨{ st with outputFifo := p.1, fifoBuffer := p.2.1 }, p.2.2, buffer, false⟩

/-- Post-drain fifo state and backing store of a `processBlock` call (the
state the PASSTHROUGH/PROCESSED decision of line 173 inspects). -/
def drainedState (st : WrapperState α) (buffer : List (List α))
    (engineQueued : List (List α)) : AbstractFifo × (Nat → α) × List (List α) :=
  drainLoop buffer.length (getNumSamples buffer * 2) engineQueued st.outputFifo st.fifoBuffer

/-- `SoundTouchWrapper::semitonesToNative`:
`std::exp(semitones * std::log(2.0f) / 12.0f)`, read over the real
numbers. -/
noncomputable def semitonesToNative (semitones : ℝ) : ℝ :=
  Real.exp (semitones * Real.log 2 / 12)

theorem interleave_succ (buf : List (List α)) (n c : Nat) :
    interleave buf (n + 1) c =
      interleave buf n c ++ (List.range c).map fun channel => getSample buf channel n := by
  unfold interleave
  rw [List.range_succ, List.flatMap_append]
  simp

theorem interleave_length (buf : List (List α)) (n c : Nat) :
    (interleave buf n c).length = n * c := by
  induction n with
  | zero => simp [interleave]
  | succ n ih =>
    rw [interleave_succ, List.length_append, ih]
    simp [Nat.succ_mul]

theorem getD_interleave (buf : List (List α)) {n c s ch : Nat}
    (hs : s < n) (hch : ch < c) :
    (interleave buf n c).getD (s * c + ch) default = getSample buf ch s := by
  induction n with
  | zero => omega
  | succ n ih =>
    rw [interleave_succ]
    by_cases h : s < n
    · rw [List.getD_append]
      · exact ih h
      · rw [interleave_length]
        have h1 : s * c + ch < (s + 1) * c := by rw [Nat.succ_mul]; omega
        have h2 : (s + 1) * c ≤ n * c := Nat.mul_le_mul_right c (by omega)
        omega
    · have hsn : s = n := by omega
      subst hsn
      rw [List.getD_append_right]
      · rw [interleave_length]
        have hx : s * c + ch - s * c = ch := by omega
        rw [hx, List.getD_eq_getElem, List.getElem_map, List.getElem_range]
        simpa using hch
      · rw [interleave_length]; omega

theorem getSample_eq_getElem (buf : List (List α)) {ch s : Nat}
    (h1 : ch < buf.length) (h2 : s < buf[ch].length) :
    getSample buf ch s = buf[ch][s] := by
  unfold getSample
  rw [List.getD_eq_getElem (l := buf) (d := []) h1, List.getD_eq_getElem]

theorem deinterleave_interleave (buf : List (List α)) {n c : Nat}
    (hwf : BufferWF buf c n) :
    deinterleave (interleave buf n c) n c = buf := by
  obtain ⟨hlen, hch⟩ := hwf
  apply List.ext_getElem
  · simp [deinterleave, hlen]
  · intro ch h1 h2
    simp only [deinterleave, List.length_map, List.length_range] at h1
    simp only [deinterleave, List.getElem_map, List.getElem_range]
    have hmem : buf[ch] ∈ buf := List.getElem_mem h2
    have hchlen : buf[ch].length = n := hch _ hmem
    apply List.ext_getElem
    · simp [hchlen]
    · intro s hs1 hs2
      simp only [List.getElem_map, List.getElem_range]
      rw [getD_interleave buf (by simpa [hchlen] using hs2) h1]
      exact getSample_eq_getElem buf h2 hs2

/-- Frame alignment: the fifo size and both positions are multiples of the
channel count (established by `prepare`/`setBufferingMode` for the
mono/stereo layouts the plugin accepts, preserved by whole-frame writes and
reads). -/
def AlignedFifo (numChannels : Nat) (f : AbstractFifo) : Prop :=
  numChannels ∣ f.bufferSize ∧ numChannels ∣ f.validStart ∧ numChannels ∣ f.validEnd

theorem pushToFifo_fst (numChannels : Nat) (f : AbstractFifo) (d : Nat → α)
    (batch : List α) (received : Nat) :
    (pushToFifo numChannels f d batch received).1 =
      if 0 < min received (f.getFreeSpace / numChannels) then
        f.finishedWrite (min received (f.getFreeSpace / numChannels) * numChannels)
      else f := by
  unfold pushToFifo
  rcases hp : f.prepareToWrite (min received (f.getFreeSpace / numChannels) * numChannels)
    with ⟨s1, z1, rest⟩
  rcases rest with ⟨s2, z2⟩
  simp only [hp]
  split <;> rfl

theorem toWrite_le_freeSpace (f : AbstractFifo) (numChannels received : Nat) :
    min received (f.getFreeSpace / numChannels) * numChannels ≤ f.getFreeSpace := by
  calc min received (f.getFreeSpace / numChannels) * numChannels
      ≤ (f.getFreeSpace / numChannels) * numChannels :=
        Nat.mul_le_mul_right _ (Nat.min_le_right _ _)
    _ ≤ f.getFreeSpace := Nat.div_mul_le_self _ _

theorem pushToFifo_getNumReady (numChannels : Nat) (f : AbstractFifo) (hwf : f.WF)
    (d : Nat → α) (batch : List α) (received : Nat) :
    ((pushToFifo numChannels f d batch received).1).getNumReady =
      f.getNumReady + min received (f.getFreeSpace / numChannels) * numChannels := by
  rw [pushToFifo_fst]
  split
  · exact getNumReady_finishedWrite f hwf _ (toWrite_le_freeSpace f numChannels received)
  · next h =>
    have h0 : min received (f.getFreeSpace / numChannels) = 0 := Nat.eq_zero_of_not_pos h
    rw [h0]
    simp

theorem pushToFifo_bufferSize (numChannels : Nat) (f : AbstractFifo) (d : Nat → α)
    (batch : List α) (received : Nat) :
    ((pushToFifo numChannels f d batch received).1).bufferSize = f.bufferSize := by
  rw [pushToFifo_fst]
  split <;> rfl

theorem pushToFifo_WF (numChannels : Nat) (f : AbstractFifo) (hwf : f.WF)
    (d : Nat → α) (batch : List α) (received : Nat) :
    ((pushToFifo numChannels f d batch received).1).WF := by
  rw [pushToFifo_fst]
  split
  · exact finishedWrite_WF f hwf _ (toWrite_le_freeSpace f numChannels received)
  · exact hwf

theorem finishedWrite_aligned (numChannels : Nat) (f : AbstractFifo)
    (hal : AlignedFifo numChannels f) (n : Nat) (hn : numChannels ∣ n) :
    AlignedFifo numChannels (f.finishedWrite n) := by
  obtain ⟨hb, hs, he⟩ := hal
  refine ⟨hb, hs, ?_⟩
  unfold AbstractFifo.finishedWrite
  simp only
  split
  · exact Nat.dvd_sub' (Nat.dvd_add he hn) hb
  · exact Nat.dvd_add he hn

theorem pushToFifo_aligned (numChannels : Nat) (f : AbstractFifo)
    (hal : AlignedFifo numChannels f) (d : Nat → α) (batch : List α) (received : Nat) :
    AlignedFifo numChannels ((pushToFifo numChannels f d batch received).1) := by
  rw [pushToFifo_fst]
  split
  · exact finishedWrite_aligned numChannels f hal _ ⟨_, Nat.mul_comm _ _⟩
  · exact hal

theorem drainLoopFuel_nil (numChannels maxFrames fuel : Nat)
    (f : AbstractFifo) (d : Nat → α) :
    drainLoopFuel numChannels maxFrames fuel ([] : List (List α)) f d = (f, d, []) := by
  cases fuel <;> simp [drainLoopFuel]

theorem drainLoopFuel_stable (numChannels maxFrames : Nat) :
    ∀ (fuel : Nat) (q : List (List α)) (f : AbstractFifo) (d : Nat → α),
      q.length ≤ fuel →
      drainLoopFuel numChannels maxFrames fuel q f d =
        drainLoopFuel numChannels maxFrames q.length q f d := by
  intro fuel
  induction fuel using Nat.strong_induction_on with
  | _ fuel ih =>
    intro q f d hq
    cases q with
    | nil =>
      rw [drainLoopFuel_nil]
      simp [drainLoopFuel]
    | cons x q0 =>
      cases fuel with
      | zero => simp at hq
      | succ fuel' =>
        show drainLoopFuel numChannels maxFrames (fuel' + 1) (x :: q0) f d =
          drainLoopFuel numChannels maxFrames (q0.length + 1) (x :: q0) f d
        rw [drainLoopFuel, drainLoopFuel]
        simp only [List.length_cons, Nat.zero_lt_succ, if_true]
        split
        · rfl
        · next hm =>
          have hmin : 1 ≤ min maxFrames (q0.length + 1) := by omega
          have hlen : ((x :: q0).drop (min maxFrames (q0.length + 1))).length ≤ q0.length := by
            simp only [List.length_drop, List.length_cons]
            omega
          simp only [List.length_cons] at hq
          rw [ih fuel' (by omega) _ _ _ (by omega),
              ih q0.length (by omega) _ _ _ hlen]

theorem drainLoopFuel_WF (numChannels maxFrames : Nat) :
    ∀ (fuel : Nat) (q : List (List α)) (f : AbstractFifo) (d : Nat → α), f.WF →
      ((drainLoopFuel numChannels maxFrames fuel q f d).1).WF := by
  intro fuel
  induction fuel with
  | zero => intro q f d h; exact h
  | succ fuel ih =>
    intro q f d h
    rw [drainLoopFuel]
    split
    · dsimp only
      split
      · exact h
      · exact ih _ _ _ (pushToFifo_WF _ _ h _ _ _)
    · exact h

theorem drainLoopFuel_aligned (numChannels maxFrames : Nat) :
    ∀ (fuel : Nat) (q : List (List α)) (f : AbstractFifo) (d : Nat → α),
      AlignedFifo numChannels f →
      AlignedFifo numChannels ((drainLoopFuel numChannels maxFrames fuel q f d).1) := by
  intro fuel
  induction fuel with
  | zero => intro q f d h; exact h
  | succ fuel ih =>
    intro q f d h
    rw [drainLoopFuel]
    split
    · dsimp only
      split
      · exact h
      · exact ih _ _ _ (pushToFifo_aligned _ _ h _ _ _)
    · exact h

theorem drainLoopFuel_bufferSize (numChannels maxFrames : Nat) :
    ∀ (fuel : Nat) (q : List (List α)) (f : AbstractFifo) (d : Nat → α),
      ((drainLoopFuel numChannels maxFrames fuel q f d).1).bufferSize = f.bufferSize := by
  intro fuel
  induction fuel with
  | zero => intro q f d; rfl
  | succ fuel ih =>
    intro q f d
    rw [drainLoopFuel]
    split
    · dsimp only
      split
      · rfl
      · rw [ih, pushToFifo_bufferSize]
    · rfl

theorem dvd_min_nat {c a b : Nat} (ha : c ∣ a) (hb : c ∣ b) : c ∣ min a b := by
  rcases le_total a b with h | h
  · rw [min_eq_left h]; exact ha
  · rw [min_eq_right h]; exact hb

theorem frames_of_dvd {c size : Nat} (hc : 0 < c) (h : c ∣ size) :
    (size + c - 1) / c = size / c := by
  obtain ⟨t, ht⟩ := h
  subst ht
  have h1 : c * t + c - 1 = c * t + (c - 1) := by omega
  rw [h1, Nat.mul_add_div hc, Nat.mul_div_cancel_left _ hc, Nat.div_eq_of_lt (by omega)]
  omega

theorem contentList_getD (f : AbstractFifo) (d : Nat → α) {m k : Nat} (hk : k < m) :
    (contentList f d m).getD k default = d ((f.validStart + k) % f.bufferSize) := by
  unfold contentList
  rw [List.getD_eq_getElem _ _ (by simpa using hk)]
  simp

/-- The dual spans returned by `prepareToRead` for a request within the
ready count: the first span runs from `validStart` to the buffer end, the
second wraps to index 0 and covers the remainder. -/
theorem prepareToRead_spec (f : AbstractFifo) (hwf : f.WF) (m : Nat)
    (h0 : 0 < m) (hm : m ≤ f.getNumReady) :
    f.prepareToRead m =
      (f.validStart, min (f.bufferSize - f.validStart) m, 0,
        m - min (f.bufferSize - f.validStart) m) := by
  obtain ⟨hB, hvs, hve⟩ := hwf
  unfold AbstractFifo.getNumReady at hm
  unfold AbstractFifo.prepareToRead
  simp only
  rw [min_eq_left hm, if_neg (by omega)]
  split
  · next hz => simp [hz]
  · next hnz =>
    have hle : m - min (f.bufferSize - f.validStart) m ≤ f.validEnd := by
      split at hm <;> omega
    rw [min_eq_left hle]

theorem readPhase_fst (c n : Nat) (f : AbstractFifo) (d : Nat → α) :
    (readPhase c n f d).1 = f.finishedRead (n * c) := by
  unfold readPhase
  rcases hp : f.prepareToRead (n * c) with ⟨s1, z1, rest⟩
  rcases rest with ⟨s2, z2⟩
  simp [hp]

/-- The two de-interleaving span loops of `processBlock`, run on an aligned
fifo holding at least `n * c` ready samples, produce exactly the oldest
`n * c` fifo samples de-interleaved to planar form. -/
theorem readPhase_snd (c n : Nat) (hc : 0 < c) (f : AbstractFifo) (d : Nat → α)
    (hwf : f.WF) (hal : AlignedFifo c f) (h : n * c ≤ f.getNumReady) :
    (readPhase c n f d).2 = deinterleave (contentList f d (n * c)) n c := by
  by_cases hn : n = 0
  · subst hn
    simp [readPhase, deinterleave, AbstractFifo.prepareToRead, contentList]
  · have hn0 : 0 < n := Nat.pos_of_ne_zero hn
    have h0 : 0 < n * c := Nat.mul_pos hn0 hc
    have hNRlt : f.getNumReady < f.bufferSize := getNumReady_lt_bufferSize f hwf
    have hnowrap : f.validStart ≤ f.validEnd →
        n * c ≤ f.validEnd - f.validStart := by
      intro hvv
      unfold AbstractFifo.getNumReady at h
      rw [if_pos hvv] at h
      exact h
    have hwrap : ¬ f.validStart ≤ f.validEnd →
        n * c ≤ f.bufferSize - (f.validStart - f.validEnd) := by
      intro hvv
      unfold AbstractFifo.getNumReady at h
      rw [if_neg hvv] at h
      exact h
    obtain ⟨hB, hvs, hve⟩ := hwf
    obtain ⟨hdB, hdvs, hdve⟩ := hal
    have hdnc : c ∣ n * c := ⟨n, Nat.mul_comm n c⟩
    have hdvd1 : c ∣ min (f.bufferSize - f.validStart) (n * c) :=
      dvd_min_nat (Nat.dvd_sub' hdB hdvs) hdnc
    have hdvd2 : c ∣ n * c - min (f.bufferSize - f.validStart) (n * c) :=
      Nat.dvd_sub' hdnc hdvd1
    unfold readPhase
    rw [prepareToRead_spec f ⟨hB, hvs, hve⟩ (n * c) h0 h]
    dsimp only
    rw [frames_of_dvd hc hdvd1, frames_of_dvd hc hdvd2]
    obtain ⟨t1, ht1⟩ := hdvd1
    obtain ⟨t2, ht2⟩ := hdvd2
    have hfr1 : min (f.bufferSize - f.validStart) (n * c) / c = t1 := by
      rw [ht1]; exact Nat.mul_div_cancel_left _ hc
    have hfr2 : (n * c - min (f.bufferSize - f.validStart) (n * c)) / c = t2 := by
      rw [ht2]; exact Nat.mul_div_cancel_left _ hc
    rw [hfr1, hfr2]
    have hsum : c * t1 + c * t2 = n * c := by omega
    have htn : t1 + t2 = n := by
      have hs2 : c * (t1 + t2) = c * n := by
        rw [Nat.mul_add]
        have hcm : n * c = c * n := Nat.mul_comm n c
        omega
      exact Nat.eq_of_mul_eq_mul_left hc hs2
    unfold deinterleave
    apply List.ext_getElem
    · simp
    · intro ch hch1 hch2
      simp only [List.getElem_map, List.getElem_range, List.length_map,
        List.length_range] at hch1 hch2 ⊢
      apply List.ext_getElem
      · simp
      · intro s hs1 hs2
        simp only [List.getElem_map, List.getElem_range, List.length_map,
          List.length_range] at hs1 hs2 ⊢
        have hch : ch < c := by simpa using hch1
        have hs : s < n := by simpa using hs1
        have hmul1 : (s + 1) * c = s * c + c := Nat.succ_mul s c
        have hkn : s * c + ch < n * c := by
          have h2 : (s + 1) * c ≤ n * c := Nat.mul_le_mul_right c (by omega)
          omega
        rw [contentList_getD f d hkn]
        by_cases hcase : s < t1
        · rw [if_pos hcase]
          have h2 : (s + 1) * c ≤ t1 * c := Nat.mul_le_mul_right c (by omega)
          have hcm : t1 * c = c * t1 := Nat.mul_comm t1 c
          have hmod : (f.validStart + (s * c + ch)) % f.bufferSize =
              f.validStart + (s * c + ch) := Nat.mod_eq_of_lt (by omega)
          rw [hmod]
          exact congrArg d (Nat.add_assoc _ _ _)
        · rw [if_neg hcase, if_pos (show s < t1 + t2 by omega)]
          have hts : t1 * c ≤ s * c := Nat.mul_le_mul_right c (by omega)
          have hcm : t1 * c = c * t1 := Nat.mul_comm t1 c
          have ht1b : c * t1 = f.bufferSize - f.validStart := by omega
          rcases le_or_lt f.validStart f.validEnd with hvv | hvv
          · exfalso
            have hnw := hnowrap hvv
            have hcz : c * t2 = 0 := by omega
            have ht2z : t2 = 0 := by
              rcases Nat.mul_eq_zero.mp hcz with h' | h' <;> omega
            omega
          · have hw := hwrap (by omega)
            have hveB : c * t2 ≤ f.validEnd := by omega
            have heq : f.validStart + (s * c + ch) =
                f.bufferSize + (s * c + ch - c * t1) := by omega
            rw [heq, Nat.add_mod_left, Nat.mod_eq_of_lt (by omega)]
            have hsub : (s - t1) * c = s * c - t1 * c := Nat.sub_mul s t1 c
            exact congrArg d (by omega)

theorem getNumSamples_of_WF {buf : List (List α)} {c n : Nat}
    (hc : 0 < c) (hbuf : BufferWF buf c n) : getNumSamples buf = n := by
  obtain ⟨hl, hall⟩ := hbuf
  unfold getNumSamples
  have h0 : 0 < buf.length := by omega
  rw [List.getD_eq_getElem _ _ h0]
  exact hall _ (List.getElem_mem h0)

/-- Concrete wrapper state used to instantiate proved properties: a small
prepared stereo configuration (fifo size 8, block size 2). -/
def demoState : WrapperState Nat :=
  { currentSampleRate := 44100.0, currentBlockSize := 2, currentNumChannels := 2,
    bufferingMode := 2, outputFifo := ⟨8, 0, 0⟩, fifoBuffer := fun _ => 0 }

/-- Concrete engine state used to instantiate proved properties. -/
def demoEngine : EngineState Nat := ⟨[[7, 8]], 5⟩

/-- Freshly constructed wrapper (no `prepare` yet): `bufferingMode = 2`
(Normal), default stream configuration from the header initialisers. -/
def initialState : WrapperState Nat :=
  { currentSampleRate := 44100.0, currentBlockSize := 512, currentNumChannels := 2,
    bufferingMode := 2, outputFifo := ⟨0, 0, 0⟩, fifoBuffer := fun _ => 0 }

/-- Freshly constructed engine. -/
def initialEngine : EngineState Nat := ⟨[], 0⟩

/-- C5: for every frame count ≥ 0, every channel count ≥ 1, and every
planar buffer of samples (the abstract sample type carries NaN/Inf and any
bit pattern unchanged — no clamping), de-interleaving the interleaving of
a buffer restores it exactly: the interleave step used on input and the
de-interleave step used on drained output are mutual inverses. -/
theorem c5_format_bridge_round_trip {α : Type} [Inhabited α]
    (buf : List (List α)) (numSamples numChannels : Nat)
    (hc : 1 ≤ numChannels) (hwf : BufferWF buf numChannels numSamples) :
    deinterleave (interleave buf numSamples numChannels) numSamples numChannels = buf :=
  deinterleave_interleave buf hwf

/-- C5 witness: the round trip evaluated on a concrete stereo buffer. -/
theorem c5_format_bridge_round_trip_witness :
    1 ≤ 2 ∧ BufferWF [[1, 2], [3, 4]] 2 2 ∧
    deinterleave (interleave [[1, 2], [3, 4]] 2 2) 2 2 = [[1, 2], [3, 4]] :=
  ⟨by decide, by decide,
    c5_format_bridge_round_trip (α := Nat) [[1, 2], [3, 4]] 2 2 (by decide) (by decide)⟩

/-- C2: calling `processBlock` with a buffer whose channel count differs
from the prepared channel count leaves the buffer, the wrapper state and
the engine queue unchanged and reports the configuration error, for every
block size ≥ 1 (the call is total — never a crash). -/
theorem c2_channel_mismatch_noop {α : Type} [Inhabited α]
    (st : WrapperState α) (buffer engineQueued : List (List α))
    (hn : 1 ≤ getNumSamples buffer)
    (hmismatch : buffer.length ≠ st.currentNumChannels) :
    (processBlock st buffer engineQueued).buffer = buffer ∧
    (processBlock st buffer engineQueued).state = st ∧
    (processBlock st buffer engineQueued).engineQueued = engineQueued ∧
    (processBlock st buffer engineQueued).configError = true := by
  unfold processBlock
  rw [if_pos hmismatch]
  exact ⟨rfl, rfl, rfl, rfl⟩

/-- C2 witness: a mono buffer fed to the stereo-prepared demo state. -/
theorem c2_channel_mismatch_noop_witness :
    1 ≤ getNumSamples [[1, 2, 3]] ∧
    ([[1, 2, 3]] : List (List Nat)).length ≠ demoState.currentNumChannels ∧
    ((processBlock demoState [[1, 2, 3]] [[9, 9]]).buffer = [[1, 2, 3]] ∧
      (processBlock demoState [[1, 2, 3]] [[9, 9]]).state = demoState ∧
      (processBlock demoState [[1, 2, 3]] [[9, 9]]).engineQueued = [[9, 9]] ∧
      (processBlock demoState [[1, 2, 3]] [[9, 9]]).configError = true) :=
  ⟨by decide, by decide,
    c2_channel_mismatch_noop demoState [[1, 2, 3]] [[9, 9]] (by decide) (by decide)⟩

/-- C6: `getLatencyInSamples` returns exactly the engine's unconsumed
input count plus the ring buffer's occupancy in frames, recomputed from
the current state on every query (in particular directly after any
`processBlock`), and is always ≥ 0. -/
theorem c6_latency_derived {α : Type} [Inhabited α]
    (st : WrapperState α) (numUnprocessedSamples : Nat) :
    getLatencyInSamples st numUnprocessedSamples =
      numUnprocessedSamples + occupancyFrames st ∧
    0 ≤ getLatencyInSamples st numUnprocessedSamples ∧
    ∀ (buffer engineQueued : List (List α)) (e : Nat),
      getLatencyInSamples (processBlock st buffer engineQueued).state e =
        e + occupancyFrames (processBlock st buffer engineQueued).state :=
  ⟨rfl, Nat.zero_le _, fun _ _ _ => rfl⟩

/-- C8: over the reals, `semitonesToNative s = exp(s·log 2 / 12)` equals
`2^(s/12)`, is strictly increasing, satisfies the reciprocal symmetry
`semitonesToNative(-s) = 1 / semitonesToNative(s)`, and maps 0 ↦ 1,
12 ↦ 2, -12 ↦ 1/2 exactly (hence within any tolerance, in particular
1e-4). -/
theorem c8_semitonesToNative_ratio :
    (∀ s : ℝ, semitonesToNative s = 2 ^ (s / 12)) ∧
    StrictMono semitonesToNative ∧
    (∀ s : ℝ, semitonesToNative (-s) = 1 / semitonesToNative s) ∧
    semitonesToNative 0 = 1 ∧
    semitonesToNative 12 = 2 ∧
    semitonesToNative (-12) = 1 / 2 ∧
    |semitonesToNative 0 - 1| ≤ 1 / 10000 ∧
    |semitonesToNative 12 - 2| ≤ 1 / 10000 ∧
    |semitonesToNative (-12) - 1 / 2| ≤ 1 / 10000 := by
  have h0 : semitonesToNative 0 = 1 := by
    unfold semitonesToNative
    norm_num
  have h12 : semitonesToNative 12 = 2 := by
    unfold semitonesToNative
    rw [show (12 : ℝ) * Real.log 2 / 12 = Real.log 2 by ring]
    exact Real.exp_log (by norm_num)
  have hneg : ∀ s : ℝ, semitonesToNative (-s) = 1 / semitonesToNative s := by
    intro s
    unfold semitonesToNative
    rw [one_div, ← Real.exp_neg]
    exact congrArg Real.exp (by ring)
  have hm12 : semitonesToNative (-12) = 1 / 2 := by
    rw [hneg 12, h12]
  refine ⟨?_, ?_, hneg, h0, h12, hm12, ?_, ?_, ?_⟩
  · intro s
    rw [Real.rpow_def_of_pos (by norm_num : (0 : ℝ) < 2)]
    exact congrArg Real.exp (by ring)
  · intro a b hab
    unfold semitonesToNative
    apply Real.exp_lt_exp.mpr
    have hl : 0 < Real.log 2 := Real.log_pos (by norm_num)
    have := mul_lt_mul_of_pos_right hab hl
    linarith
  · rw [h0]; norm_num
  · rw [h12]; norm_num
  · rw [hm12]; norm_num

/-- C9: `setBufferingMode` with a mode outside {1,2,3} or equal to the
current mode leaves wrapper and engine completely unchanged (no
reallocation, no engine clear, buffered audio retained); the
processor-level wrapper additionally rejects out-of-range modes before
forwarding, leaving its stored atomic untouched as well. -/
theorem c9_setBufferingMode_rejects {α : Type} [Inhabited α]
    (st : WrapperState α) (e : EngineState α) (procMode mode : Int)
    (h : mode < 1 ∨ 3 < mode ∨ mode = st.bufferingMode) :
    setBufferingMode st e mode = (st, e) ∧
    ((mode < 1 ∨ 3 < mode) →
      processorSetBufferingMode procMode st e mode = (procMode, st, e)) := by
  constructor
  · unfold setBufferingMode
    rw [if_pos h]
  · intro hout
    unfold processorSetBufferingMode
    rw [if_neg (by omega)]

/-- C9 witness: mode 5 (out of range) and mode 2 (current) on the demo
state. -/
theorem c9_setBufferingMode_rejects_witness :
    ((5 : Int) < 1 ∨ (3 : Int) < 5 ∨ (5 : Int) = demoState.bufferingMode) ∧
    (setBufferingMode demoState demoEngine 5 = (demoState, demoEngine) ∧
      (((5 : Int) < 1 ∨ (3 : Int) < 5) →
        processorSetBufferingMode 2 demoState demoEngine 5 = (2, demoState, demoEngine))) :=
  ⟨by decide, c9_setBufferingMode_rejects demoState demoEngine 2 5 (by decide)⟩

/-- A successful `setBufferingMode` (valid mode, different from the
current one, prepared dimensions) discards the fifo and reallocates it at
the new policy size with both positions reset, and clears the engine. -/
theorem setBufferingMode_eq_realloc (st : WrapperState α) (e : EngineState α)
    (mode : Int) (hbs : 0 < st.currentBlockSize) (hch : 0 < st.currentNumChannels)
    (hm1 : 1 ≤ mode) (hm3 : mode ≤ 3) (hne : mode ≠ st.bufferingMode) :
    setBufferingMode st e mode =
      ({ st with
          bufferingMode := mode
          outputFifo := ⟨fifoSizeFor mode st.currentBlockSize, 0, 0⟩ }, e.clear) := by
  unfold setBufferingMode
  rw [if_neg (by omega), if_pos ⟨hbs, hch⟩]

/-- C7: for every prepared adapter and valid mode different from the
current one, `setBufferingMode` reallocates the ring buffer at the
capacity prescribed for the new mode with zero occupancy and clears the
engine's queues; in particular `setBufferingMode 1` (Minimal) immediately
followed by `setBufferingMode 3` (Extra), with no `processBlock` between,
ends with an Extra-capacity buffer and zero occupancy. -/
theorem c7_setBufferingMode_realloc {α : Type} [Inhabited α]
    (st : WrapperState α) (e : EngineState α) (mode : Int)
    (hbs : 0 < st.currentBlockSize) (hch : 0 < st.currentNumChannels)
    (hm1 : 1 ≤ mode) (hm3 : mode ≤ 3) (hne : mode ≠ st.bufferingMode) :
    ((setBufferingMode st e mode).1.outputFifo.bufferSize =
        fifoSizeFor mode st.currentBlockSize ∧
      (setBufferingMode st e mode).1.outputFifo.getNumReady = 0 ∧
      (setBufferingMode st e mode).1.bufferingMode = mode ∧
      (setBufferingMode st e mode).2 = (⟨[], 0⟩ : EngineState α)) ∧
    ((setBufferingMode (setBufferingMode st e 1).1 (setBufferingMode st e 1).2
          3).1.outputFifo.bufferSize = max 32768 (st.currentBlockSize * 64) ∧
      (setBufferingMode (setBufferingMode st e 1).1 (setBufferingMode st e 1).2
          3).1.outputFifo.getNumReady = 0) := by
  constructor
  · rw [setBufferingMode_eq_realloc st e mode hbs hch hm1 hm3 hne]
    exact ⟨rfl, rfl, rfl, rfl⟩
  · by_cases hb1 : (1 : Int) = st.bufferingMode
    · have hA0 : setBufferingMode st e 1 = (st, e) := by
        unfold setBufferingMode
        rw [if_pos (Or.inr (Or.inr hb1))]
      rw [hA0, setBufferingMode_eq_realloc st e 3 hbs hch (by omega) (by omega) (by omega)]
      constructor
      · show fifoSizeFor 3 st.currentBlockSize = max 32768 (st.currentBlockSize * 64)
        simp [fifoSizeFor]
      · rfl
    · rw [setBufferingMode_eq_realloc st e 1 hbs hch (by omega) (by omega)
          (fun hcontra => hb1 hcontra)]
      rw [setBufferingMode_eq_realloc _ _ 3 (by exact hbs) (by exact hch) (by omega)
          (by omega) (show (3 : Int) ≠ 1 by decide)]
      constructor
      · show fifoSizeFor 3 st.currentBlockSize = max 32768 (st.currentBlockSize * 64)
        norm_num [fifoSizeFor]
      · rfl

/-- C7 witness: switch the prepared demo state from Normal to Minimal, and
run the Minimal-then-Extra scenario on it. -/
theorem c7_setBufferingMode_realloc_witness :
    (0 < demoState.currentBlockSize ∧ 0 < demoState.currentNumChannels ∧
      (1 : Int) ≤ 1 ∧ (1 : Int) ≤ 3 ∧ (1 : Int) ≠ demoState.bufferingMode) ∧
    (((setBufferingMode demoState demoEngine 1).1.outputFifo.bufferSize =
        fifoSizeFor 1 demoState.currentBlockSize ∧
      (setBufferingMode demoState demoEngine 1).1.outputFifo.getNumReady = 0 ∧
      (setBufferingMode demoState demoEngine 1).1.bufferingMode = 1 ∧
      (setBufferingMode demoState demoEngine 1).2 = (⟨[], 0⟩ : EngineState Nat)) ∧
    ((setBufferingMode (setBufferingMode demoState demoEngine 1).1
          (setBufferingMode demoState demoEngine 1).2 3).1.outputFifo.bufferSize =
        max 32768 (demoState.currentBlockSize * 64) ∧
      (setBufferingMode (setBufferingMode demoState demoEngine 1).1
          (setBufferingMode demoState demoEngine 1).2 3).1.outputFifo.getNumReady = 0)) :=
  ⟨⟨by decide, by decide, by decide, by decide, by decide⟩,
    c7_setBufferingMode_realloc demoState demoEngine 1 (by decide) (by decide)
      (by decide) (by decide) (by decide)⟩

/-- C4 (amended): after `prepare` and after any successful
`setBufferingMode`, the ring buffer's capacity in interleaved samples
equals the buffering-mode policy — Minimal = max(4096, 8×blockSize),
Normal = max(16384, 32×blockSize), Extra = max(32768, 64×blockSize) — and
its capacity in frames is that sample count divided by the channel
count. -/
theorem c4_capacity_policy_amended {α : Type} [Inhabited α]
    (st : WrapperState α) (e : EngineState α) (sampleRate : Float)
    (blockSize numChannels : Nat) (mode : Int)
    (hbs : 0 < st.currentBlockSize) (hch : 0 < st.currentNumChannels)
    (hm1 : 1 ≤ mode) (hm3 : mode ≤ 3) (hne : mode ≠ st.bufferingMode) :
    ((prepare st e sampleRate blockSize numChannels).1.outputFifo.bufferSize =
        fifoSizeFor st.bufferingMode blockSize ∧
      ((st.bufferingMode = 1 →
          fifoSizeFor st.bufferingMode blockSize = max 4096 (blockSize * 8)) ∧
        (st.bufferingMode = 2 →
          fifoSizeFor st.bufferingMode blockSize = max 16384 (blockSize * 32)) ∧
        (st.bufferingMode = 3 →
          fifoSizeFor st.bufferingMode blockSize = max 32768 (blockSize * 64))) ∧
      capacityFrames (prepare st e sampleRate blockSize numChannels).1 =
        fifoSizeFor st.bufferingMode blockSize / numChannels) ∧
    ((setBufferingMode st e mode).1.outputFifo.bufferSize =
        fifoSizeFor mode st.currentBlockSize ∧
      capacityFrames (setBufferingMode st e mode).1 =
        fifoSizeFor mode st.currentBlockSize / st.currentNumChannels) := by
  refine ⟨⟨rfl, ⟨?_, ?_, ?_⟩, rfl⟩, ?_⟩
  · intro h1; rw [h1]; simp [fifoSizeFor]
  · intro h2; rw [h2]; simp [fifoSizeFor]
  · intro h3; rw [h3]; simp [fifoSizeFor]
  · rw [setBufferingMode_eq_realloc st e mode hbs hch hm1 hm3 hne]
    exact ⟨rfl, rfl⟩

/-- C4 witness: the amended statement at the demo state with mode 1. -/
theorem c4_capacity_policy_amended_witness :
    (0 < demoState.currentBlockSize ∧ 0 < demoState.currentNumChannels ∧
      (1 : Int) ≤ 1 ∧ (1 : Int) ≤ 3 ∧ (1 : Int) ≠ demoState.bufferingMode) ∧
    (((prepare demoState demoEngine 48000.0 512 2).1.outputFifo.bufferSize =
        fifoSizeFor demoState.bufferingMode 512 ∧
      ((demoState.bufferingMode = 1 →
          fifoSizeFor demoState.bufferingMode 512 = max 4096 (512 * 8)) ∧
        (demoState.bufferingMode = 2 →
          fifoSizeFor demoState.bufferingMode 512 = max 16384 (512 * 32)) ∧
        (demoState.bufferingMode = 3 →
          fifoSizeFor demoState.bufferingMode 512 = max 32768 (512 * 64))) ∧
      capacityFrames (prepare demoState demoEngine 48000.0 512 2).1 =
        fifoSizeFor demoState.bufferingMode 512 / 2) ∧
    ((setBufferingMode demoState demoEngine 1).1.outputFifo.bufferSize =
        fifoSizeFor 1 demoState.currentBlockSize ∧
      capacityFrames (setBufferingMode demoState demoEngine 1).1 =
        fifoSizeFor 1 demoState.currentBlockSize / demoState.currentNumChannels)) :=
  ⟨⟨by decide, by decide, by decide, by decide, by decide⟩,
    c4_capacity_policy_amended demoState demoEngine 48000.0 512 2 1 (by decide)
      (by decide) (by decide) (by decide) (by decide)⟩

/-- C4 counterexample: prepare the freshly constructed wrapper (Normal
mode) with block size 512, stereo.  The Normal policy value is
max(16384, 32×512) = 16384, but the fifo then holds 16384 interleaved
samples, i.e. 8192 stereo frames — the ring buffer's capacity in frames
does not equal the policy value. -/
theorem c4_capacity_policy_counterexample :
    capacityFrames (prepare initialState initialEngine 44100.0 512 2).1 = 8192 ∧
    max 16384 (512 * 32) = 16384 ∧
    capacityFrames (prepare initialState initialEngine 44100.0 512 2).1 ≠
      max 16384 (512 * 32) := by
  refine ⟨by decide, by decide, by decide⟩

/-- C3: in each drain-loop iteration the number of samples committed to
the ring buffer is exactly min(received, freeSpace-in-frames) whole
frames, never more than the current free space; the excess of the
received batch is discarded (the capacity does not grow), and occupancy
never exceeds capacity after the write. -/
theorem c3_drain_commit_bounded {α : Type} [Inhabited α]
    (numChannels : Nat) (f : AbstractFifo) (d : Nat → α)
    (batch : List α) (received : Nat) (hwf : f.WF) :
    ((pushToFifo numChannels f d batch received).1).getNumReady =
        f.getNumReady + min received (f.getFreeSpace / numChannels) * numChannels ∧
    min received (f.getFreeSpace / numChannels) * numChannels ≤ f.getFreeSpace ∧
    ((pushToFifo numChannels f d batch received).1).bufferSize = f.bufferSize ∧
    ((pushToFifo numChannels f d batch received).1).getNumReady ≤ f.bufferSize := by
  have h1 := pushToFifo_getNumReady numChannels f hwf d batch received
  refine ⟨h1, toWrite_le_freeSpace f numChannels received,
    pushToFifo_bufferSize numChannels f d batch received, ?_⟩
  rw [h1]
  have h2 := toWrite_le_freeSpace f numChannels received
  have h3 := getNumReady_lt_bufferSize f hwf
  have h4 : f.getFreeSpace = f.bufferSize - f.getNumReady - 1 := rfl
  omega

/-- C3 witness: a nearly full stereo fifo (6 of 8 samples occupied, one
free frame short) receiving a 2-frame batch commits 0 frames. -/
theorem c3_drain_commit_bounded_witness :
    AbstractFifo.WF ⟨8, 0, 6⟩ ∧
    (((pushToFifo 2 ⟨8, 0, 6⟩ (fun _ => (0 : Nat)) [1, 2, 3, 4] 2).1).getNumReady =
        (⟨8, 0, 6⟩ : AbstractFifo).getNumReady +
          min 2 ((⟨8, 0, 6⟩ : AbstractFifo).getFreeSpace / 2) * 2 ∧
      min 2 ((⟨8, 0, 6⟩ : AbstractFifo).getFreeSpace / 2) * 2 ≤
        (⟨8, 0, 6⟩ : AbstractFifo).getFreeSpace ∧
      ((pushToFifo 2 ⟨8, 0, 6⟩ (fun _ => (0 : Nat)) [1, 2, 3, 4] 2).1).bufferSize = 8 ∧
      ((pushToFifo 2 ⟨8, 0, 6⟩ (fun _ => (0 : Nat)) [1, 2, 3, 4] 2).1).getNumReady ≤ 8) :=
  ⟨by decide, c3_drain_commit_bounded 2 ⟨8, 0, 6⟩ (fun _ => (0 : Nat)) [1, 2, 3, 4] 2 (by decide)⟩

theorem drainLoop_maxFrames_zero (numChannels : Nat) (q : List (List α))
    (f : AbstractFifo) (d : Nat → α) :
    drainLoop numChannels 0 q f d = (f, d, q) := by
  cases q with
  | nil => exact drainLoopFuel_nil numChannels 0 0 f d
  | cons x q0 =>
    show drainLoopFuel numChannels 0 (q0.length + 1) (x :: q0) f d = (f, d, x :: q0)
    rw [drainLoopFuel]
    simp

theorem drainLoop_drains (numChannels maxFrames : Nat) (hm : 1 ≤ maxFrames) :
    ∀ (L : Nat) (q : List (List α)) (f : AbstractFifo) (d : Nat → α), q.length = L →
      (drainLoop numChannels maxFrames q f d).2.2 = [] := by
  intro L
  induction L using Nat.strong_induction_on with
  | _ L ih =>
    intro q f d hL
    cases q with
    | nil =>
      show (drainLoopFuel numChannels maxFrames ([] : List (List α)).length [] f d).2.2 = []
      rw [drainLoopFuel_nil]
    | cons x q0 =>
      simp only [List.length_cons] at hL
      show (drainLoopFuel numChannels maxFrames (q0.length + 1) (x :: q0) f d).2.2 = []
      rw [drainLoopFuel]
      simp only [List.length_cons, Nat.zero_lt_succ, if_true]
      split
      · next hz => exfalso; omega
      · have hdrop : ((x :: q0).drop (min maxFrames (q0.length + 1))).length ≤ q0.length := by
          simp only [List.length_drop, List.length_cons]
          omega
        rw [drainLoopFuel_stable numChannels maxFrames q0.length _ _ _ hdrop]
        exact ih _ (by omega) _ _ _ rfl

/-- C10: the drain loop is a bounded synchronous computation: any fuel of
at least the queue length yields the same result as running the loop to
completion (at most one iteration per queued frame), the loop consumes
the entire engine queue whenever `receiveSamples` can return at least one
frame (`maxFrames ≥ 1`), and it exits immediately leaving everything
unchanged when `receiveSamples` returns 0 (`maxFrames = 0`). -/
theorem c10_drain_loop_terminates {α : Type} [Inhabited α]
    (numChannels maxFrames fuel : Nat) (q : List (List α))
    (f : AbstractFifo) (d : Nat → α) (hfuel : q.length ≤ fuel) :
    drainLoopFuel numChannels maxFrames fuel q f d =
      drainLoop numChannels maxFrames q f d ∧
    (1 ≤ maxFrames → (drainLoop numChannels maxFrames q f d).2.2 = []) ∧
    (maxFrames = 0 → drainLoop numChannels maxFrames q f d = (f, d, q)) := by
  refine ⟨drainLoopFuel_stable numChannels maxFrames fuel q f d hfuel, ?_, ?_⟩
  · intro hm
    exact drainLoop_drains numChannels maxFrames hm q.length q f d rfl
  · intro hz
    subst hz
    exact drainLoop_maxFrames_zero numChannels q f d

/-- C10 witness: three queued frames drained with generous fuel. -/
theorem c10_drain_loop_terminates_witness :
    ([[10, 11], [12, 13], [14, 15]] : List (List Nat)).length ≤ 7 ∧
    (drainLoopFuel 2 4 7 [[10, 11], [12, 13], [14, 15]] ⟨8, 0, 0⟩ (fun _ => (0 : Nat)) =
      drainLoop 2 4 [[10, 11], [12, 13], [14, 15]] ⟨8, 0, 0⟩ (fun _ => (0 : Nat)) ∧
    (1 ≤ 4 →
      (drainLoop 2 4 [[10, 11], [12, 13], [14, 15]] ⟨8, 0, 0⟩ (fun _ => (0 : Nat))).2.2 = []) ∧
    ((4 : Nat) = 0 →
      drainLoop 2 4 [[10, 11], [12, 13], [14, 15]] ⟨8, 0, 0⟩ (fun _ => (0 : Nat)) =
        (⟨8, 0, 0⟩, fun _ => (0 : Nat), [[10, 11], [12, 13], [14, 15]]))) :=
  ⟨by decide,
    c10_drain_loop_terminates 2 4 7 [[10, 11], [12, 13], [14, 15]] ⟨8, 0, 0⟩
      (fun _ => (0 : Nat)) (by decide)⟩

/-- C1: for every prepared adapter (well-formed, frame-aligned fifo) and
every block, `processBlock` follows the two-outcome rule on the post-drain
ring-buffer occupancy in frames: below the block's frame count the output
buffer is left exactly equal to the input (PASSTHROUGH); at or above it,
the output buffer is fully overwritten with exactly `blockFrames` frames
drained from the ring buffer, de-interleaved back to planar form, and
those `blockFrames` frames are consumed from the buffer. -/
theorem c1_two_outcome_rule {α : Type} [Inhabited α]
    (st : WrapperState α) (buffer engineQueued : List (List α)) (n : Nat)
    (hc : 0 < st.currentNumChannels)
    (hbuf : BufferWF buffer st.currentNumChannels n)
    (hwf : st.outputFifo.WF)
    (hal : AlignedFifo st.currentNumChannels st.outputFifo) :
    ((drainedState st buffer engineQueued).1.getNumReady / st.currentNumChannels < n →
      (processBlock st buffer engineQueued).buffer = buffer) ∧
    (n ≤ (drainedState st buffer engineQueued).1.getNumReady / st.currentNumChannels →
      (processBlock st buffer engineQueued).buffer =
        deinterleave
          (contentList (drainedState st buffer engineQueued).1
            (drainedState st buffer engineQueued).2.1 (n * st.currentNumChannels))
          n st.currentNumChannels ∧
      (processBlock st buffer engineQueued).state.outputFifo.getNumReady =
        (drainedState st buffer engineQueued).1.getNumReady -
          n * st.currentNumChannels) := by
  have hn : getNumSamples buffer = n := getNumSamples_of_WF hc hbuf
  have hlen : buffer.length = st.currentNumChannels := hbuf.1
  have hP : drainedState st buffer engineQueued =
      drainLoop st.currentNumChannels (n * 2) engineQueued st.outputFifo st.fifoBuffer := by
    unfold drainedState
    rw [hn, hlen]
  have hdwf : (drainLoop st.currentNumChannels (n * 2) engineQueued st.outputFifo
      st.fifoBuffer).1.WF :=
    drainLoopFuel_WF st.currentNumChannels (n * 2) engineQueued.length engineQueued
      st.outputFifo st.fifoBuffer hwf
  have hdal : AlignedFifo st.currentNumChannels
      (drainLoop st.currentNumChannels (n * 2) engineQueued st.outputFifo
        st.fifoBuffer).1 :=
    drainLoopFuel_aligned st.currentNumChannels (n * 2) engineQueued.length engineQueued
      st.outputFifo st.fifoBuffer hal
  rw [hP]
  unfold processBlock
  rw [hn, hlen, if_neg (show ¬(st.currentNumChannels ≠ st.currentNumChannels) by omega)]
  dsimp only
  constructor
  · intro hlt
    rw [if_neg (by omega)]
  · intro hge
    rw [if_pos hge]
    have hnc : n * st.currentNumChannels ≤
        (drainLoop st.currentNumChannels (n * 2) engineQueued st.outputFifo
          st.fifoBuffer).1.getNumReady :=
      (Nat.le_div_iff_mul_le hc).mp hge
    constructor
    · exact readPhase_snd st.currentNumChannels n hc _ _ hdwf hdal hnc
    · show ((readPhase st.currentNumChannels n
          (drainLoop st.currentNumChannels (n * 2) engineQueued st.outputFifo
            st.fifoBuffer).1
          (drainLoop st.currentNumChannels (n * 2) engineQueued st.outputFifo
            st.fifoBuffer).2.1).1).getNumReady = _
      rw [readPhase_fst]
      exact getNumReady_finishedRead _ hdwf _ hnc

instance (numChannels : Nat) (f : AbstractFifo) :
    Decidable (AlignedFifo numChannels f) := by
  unfold AlignedFifo; infer_instance

/-- C1 witness: the demo state processing a stereo 2-frame block while
the engine has 3 queued frames — occupancy after the drain is 3 frames,
so the block is PROCESSED. -/
theorem c1_two_outcome_rule_witness :
    (0 < demoState.currentNumChannels ∧
      BufferWF [[1, 2], [3, 4]] demoState.currentNumChannels 2 ∧
      demoState.outputFifo.WF ∧
      AlignedFifo demoState.currentNumChannels demoState.outputFifo) ∧
    (((drainedState demoState [[1, 2], [3, 4]]
          [[10, 11], [12, 13], [14, 15]]).1.getNumReady /
            demoState.currentNumChannels < 2 →
        (processBlock demoState [[1, 2], [3, 4]]
          [[10, 11], [12, 13], [14, 15]]).buffer = [[1, 2], [3, 4]]) ∧
      (2 ≤ (drainedState demoState [[1, 2], [3, 4]]
          [[10, 11], [12, 13], [14, 15]]).1.getNumReady /
            demoState.currentNumChannels →
        (processBlock demoState [[1, 2], [3, 4]]
            [[10, 11], [12, 13], [14, 15]]).buffer =
          deinterleave
            (contentList (drainedState demoState [[1, 2], [3, 4]]
                [[10, 11], [12, 13], [14, 15]]).1
              (drainedState demoState [[1, 2], [3, 4]]
                [[10, 11], [12, 13], [14, 15]]).2.1
              (2 * demoState.currentNumChannels))
            2 demoState.currentNumChannels ∧
        (processBlock demoState [[1, 2], [3, 4]]
            [[10, 11], [12, 13], [14, 15]]).state.outputFifo.getNumReady =
          (drainedState demoState [[1, 2], [3, 4]]
              [[10, 11], [12, 13], [14, 15]]).1.getNumReady -
            2 * demoState.currentNumChannels)) :=
  ⟨⟨by decide, by decide, by decide, by decide⟩,
    c1_two_outcome_rule demoState [[1, 2], [3, 4]] [[10, 11], [12, 13], [14, 15]] 2
      (by decide) (by decide) (by decide) (by decide)⟩
